import Mathlib

/-!
Verification of the resource-caching layer of the AOSP render engine
(`GLESRenderEngine.h`) and of the process-reclaim JNI helper
(`com_android_server_am_CachedAppOptimizer.cpp`).

The render-engine header declares the operations and members; its method
bodies are not part of the sources at hand, so the cache, context and
cleanup behaviour is modelled from the specification's component design
(sections 4.1-4.5).  The reclaim helper's full implementation is present
and is embedded directly.

The file is organised as definitions first, then lemmas and theorems.
-/

namespace Compact

/-- The `DT_DIR` directory-entry type constant from `dirent.h`. -/
def DT_DIR : Nat := 4

/-- A `struct dirent` as observed by `readdir`: the entry type and name. -/
structure DirEnt where
  d_type : Nat
  d_name : String
deriving DecidableEq

/-- The environment `compactSystem` runs in: the entries of `/proc`, the
result of `stat` on a path (`some uid` gives the owner uid of the file when
`stat` succeeds, `none` means `stat` failed), and the pid of the calling
process as returned by `getpid()`. -/
structure ProcFS where
  entries : List DirEnt
  statUid : String → Option Nat
  pid : Int

/-- C `isspace` for the default locale: space, tab, newline, vertical tab,
form feed, carriage return. -/
def cIsSpace (c : Char) : Bool :=
  c == ' ' || c == '\t' || c == '\n' || c == '\x0b' || c == '\x0c' || c == '\r'

/-- Drop the leading whitespace characters, as `atoi` does. -/
def skipSpace : List Char → List Char
  | [] => []
  | c :: cs => if cIsSpace c then skipSpace cs else c :: cs

/-- Accumulate the value of a leading run of decimal digits; stop at the
first non-digit, as `atoi` does. -/
def digitsVal : List Char → Nat → Nat
  | [], acc => acc
  | c :: cs, acc => if c.isDigit then digitsVal cs (10 * acc + (c.toNat - 48)) else acc

/-- C `atoi`: skip leading whitespace, an optional sign, then a maximal
run of digits; `0` when no digits are present. -/
def atoi (s : String) : Int :=
  match skipSpace s.data with
  | '-' :: cs => -(digitsVal cs 0 : Int)
  | '+' :: cs => (digitsVal cs 0 : Int)
  | cs => (digitsVal cs 0 : Int)

/-- The path `"/proc/<name>/status"` built by `StringPrintf` in the loop. -/
def statusPath (name : String) : String := "/proc/" ++ name ++ "/status"

/-- The path `"/proc/<name>/reclaim"` built by `StringPrintf` in the loop. -/
def reclaimPath (name : String) : String := "/proc/" ++ name ++ "/reclaim"

/-- One iteration of the `readdir` loop of
`com_android_server_am_CachedAppOptimizer_compactSystem`: skip non-directory
entries, skip the calling process (`atoi(d_name) == getpid()`), skip entries
whose `/proc/<name>/status` cannot be `stat`ed, skip owners with
`st_uid >= 10000` (`FIRST_APPLICATION_UID`), and otherwise write `"all"` to
`/proc/<name>/reclaim`. -/
def compactStep (fs : ProcFS) (e : DirEnt) : Option (String × String) :=
  if e.d_type != DT_DIR then none
  else if atoi e.d_name == fs.pid then none
  else
    match fs.statUid (statusPath e.d_name) with
    | none => none
    | some uid => if 10000 ≤ uid then none else some (reclaimPath e.d_name, "all")

/-- `compactSystem`: the sequence of `WriteStringToFile` calls (path and
contents) performed over the `/proc` directory listing. -/
def compactSystem (fs : ProcFS) : List (String × String) :=
  fs.entries.filterMap (compactStep fs)

/-- A tiny concrete `/proc` environment used to instantiate the
`compactSystem` theorem at a concrete input. -/
def fsEx : ProcFS :=
  ⟨[⟨4, "123"⟩], fun p => if p == "/proc/123/status" then some 0 else none, 1⟩

end Compact

namespace OutImg

/-- Modelled from the spec: the Output Image Cache, "an ordered sequence of
(BufferIdentity, OutputImage) pairs, insertion-ordered, bounded at a
configured maximum count N" (the header's `mFramebufferImageCache` deque
with `mFramebufferImageCacheSize`; the body of
`createFramebufferImageIfNeeded` is not in the sources). The front of
`entries` is the oldest (least-recently-inserted) pair. -/
structure OutputImageCache where
  capacity : Nat
  entries : List (Nat × Nat)
deriving DecidableEq

/-- Modelled from the spec: `getOrCreate(bufferIdentity, createFn)` of the
Output Image Cache (spec 4.2). Returns the existing entry if present
without touching the insertion order; on a miss inserts `img` at the back
and, if the size now exceeds the capacity, evicts and destroys the front
(oldest) entry. Result: (new cache, returned image, destroyed entry). -/
def getOrCreate (c : OutputImageCache) (id img : Nat) :
    OutputImageCache × Nat × Option (Nat × Nat) :=
  match c.entries.find? (fun p => p.1 == id) with
  | some p => (c, p.2, none)
  | none =>
      let es := c.entries ++ [(id, img)]
      if c.capacity < es.length then
        ({ c with entries := es.tail }, img, es.head?)
      else
        ({ c with entries := es }, img, none)

/-- Run a sequence of `getOrCreate` calls, threading the cache state. -/
def runCache (c : OutputImageCache) (ops : List (Nat × Nat)) : OutputImageCache :=
  ops.foldl (fun s op => (getOrCreate s op.1 op.2).1) c

/-- Run a sequence of `getOrCreate` calls, also collecting the destroyed
entries in order of destruction. -/
def runCacheD (c : OutputImageCache) (ops : List (Nat × Nat)) :
    OutputImageCache × List (Nat × Nat) :=
  ops.foldl
    (fun s op =>
      let r := getOrCreate s.1 op.1 op.2
      (r.1, s.2 ++ r.2.2.toList))
    (c, [])

end OutImg

namespace Tex

/-- Modelled from the spec: the result of importing a buffer into the
active context (spec 4.1); `bindExternalTextureBuffer` fails with
context-loss or import failure. -/
inductive BindResult where
  | ok
  | contextLost
  | importFailed
deriving DecidableEq

/-- Modelled from the spec: the External Texture Cache, a mapping from
buffer identity to the bound GPU image (the header's `mImageCache`,
an `unordered_map` keyed by GraphicBuffer ID), as an association list
with unique keys. -/
abbrev Cache := List (Nat × Nat)

/-- Map lookup on the association list. -/
def lookup : Cache → Nat → Option Nat
  | [], _ => none
  | p :: s, id => if p.1 == id then some p.2 else lookup s id

/-- Map erase on the association list. -/
def eraseId : Cache → Nat → Cache
  | [], _ => []
  | p :: s, id => if p.1 == id then eraseId s id else p :: eraseId s id

/-- Modelled from the spec: `bind(bufferIdentity, payload)` (spec 4.1, the
body of `bindExternalTextureBuffer` is not in the sources). On success the
old image for this identity, if any, is destroyed and replaced. On failure
the cache is left without an entry for the identity. Result:
(new cache, destroyed old image, error). -/
def bind (s : Cache) (id img : Nat) (r : BindResult) :
    Cache × Option Nat × Option BindResult :=
  match r with
  | .ok => ((id, img) :: eraseId s id, lookup s id, none)
  | e => (eraseId s id, lookup s id, some e)

/-- Modelled from the spec: `unbind(bufferIdentity)` removes and destroys
the entry if present (the body of `unbindExternalTextureBuffer` is not in
the sources). Result: (new cache, destroyed image). -/
def unbind (s : Cache) (id : Nat) : Cache × Option Nat :=
  (eraseId s id, lookup s id)

/-- Modelled from the spec: `evictStale(activeIdentities)` removes and
destroys every cached entry whose identity is not in the active set (the
body of `evictImages` is not in the sources). Result:
(kept entries, removed-and-destroyed entries). -/
def evictStale (s : Cache) (act : List Nat) : Cache × Cache :=
  (s.filter (fun p => act.contains p.1), s.filter (fun p => !act.contains p.1))

/-- An operation of the External Texture Cache, with the GPU import
outcome of a bind supplied by the environment. -/
inductive TexOp where
  | bind (id img : Nat) (r : BindResult)
  | unbind (id : Nat)
  | evict (act : List Nat)
deriving DecidableEq

/-- Apply one operation to the cache. -/
def step (s : Cache) (op : TexOp) : Cache :=
  match op with
  | .bind id img r => (bind s id img r).1
  | .unbind id => (unbind s id).1
  | .evict act => (evictStale s act).1

/-- Run a sequence of operations from a given cache state. -/
def runFrom (s : Cache) (ops : List TexOp) : Cache := ops.foldl step s

/-- Run a sequence of operations from the empty cache. -/
def run (ops : List TexOp) : Cache := runFrom [] ops

/-- Follows the claim's words, not the code: identity `id` should be live
after `ops` iff it was bound successfully and not subsequently unbound or
removed by an eviction pass whose active set misses it. -/
def liveF (id : Nat) (alive : Bool) (op : TexOp) : Bool :=
  match op with
  | .bind i _ r => if i == id then (match r with | .ok => true | _ => false) else alive
  | .unbind i => if i == id then false else alive
  | .evict act => if act.contains id then alive else false

/-- Follows the claim's words: fold `liveF` over the operation sequence. -/
def specLive (ops : List TexOp) (id : Nat) : Bool := ops.foldl (liveF id) false

/-- The number of cache entries carrying key `id`. -/
def countKey (s : Cache) (id : Nat) : Nat := (s.filter (fun p => p.1 == id)).length

/-- The cache keys are pairwise distinct. -/
def keysNodup (s : Cache) : Prop := (s.map Prod.fst).Nodup

end Tex

namespace Prot

/-- An operation of the engine relevant to protected-context isolation:
bind or unbind an external texture, create an output image, switch the
protection mode, or issue a draw call over the currently bound images. -/
inductive POp where
  | bind (id : Nat)
  | unbind (id : Nat)
  | getOut (id : Nat)
  | setProt (enable : Bool)
  | draw
deriving DecidableEq

/-- Modelled from the spec: the engine state for protected-context
isolation (spec 4.3). Cache entries are tagged with their creation step so
that cross-switch reuse is observable: `tex` and `out` map identities to
birth times, `switches` records the steps at which an effective mode
switch happened, and `draws` records, for each draw call, the birth times
of the bound images passed to it. -/
structure PState where
  inProt : Bool
  tex : List (Nat × Nat)
  out : List (Nat × Nat)
  switches : List Nat
  draws : List (Nat × List Nat)
deriving DecidableEq

/-- Modelled from the spec: one engine step at time `t`. A `setProt` that
changes the active mode clears both caches ("clear both caches on every
switch", spec 4.3); a request for the protected mode is honored only when
the protected context is available (`sup`). A draw call consumes every
image currently in the texture cache. -/
def pstep (sup : Bool) (s : PState) (t : Nat) (op : POp) : PState :=
  match op with
  | .bind id => { s with tex := (id, t) :: s.tex.filter (fun p => p.1 != id) }
  | .unbind id => { s with tex := s.tex.filter (fun p => p.1 != id) }
  | .getOut id =>
      match s.out.find? (fun p => p.1 == id) with
      | some _ => s
      | none => { s with out := s.out ++ [(id, t)] }
  | .setProt e =>
      let m := e && sup
      if m == s.inProt then s
      else { s with inProt := m, tex := [], out := [], switches := s.switches ++ [t] }
  | .draw => { s with draws := s.draws ++ [(t, s.tex.map Prod.snd)] }

/-- Run the engine from a state and a start time. -/
def prunAux (sup : Bool) : PState → Nat → List POp → PState
  | s, _, [] => s
  | s, t, op :: ops => prunAux sup (pstep sup s t op) (t + 1) ops

/-- The initial engine state: normal mode, empty caches, no history. -/
def pinit : PState := ⟨false, [], [], [], []⟩

/-- Run the engine from the initial state at time 0. -/
def prun (sup : Bool) (ops : List POp) : PState := prunAux sup pinit 0 ops

/-- The isolation invariant at time `t`: all recorded switches are in the
past; every cached image was created in the past and after every switch;
and every recorded draw only consumed images born after every switch that
preceded the draw. -/
def PInv (s : PState) (t : Nat) : Prop :=
  (∀ ts ∈ s.switches, ts < t) ∧
  (∀ p ∈ s.tex, p.2 < t ∧ ∀ ts ∈ s.switches, ts < p.2) ∧
  (∀ p ∈ s.out, p.2 < t ∧ ∀ ts ∈ s.switches, ts < p.2) ∧
  (∀ d ∈ s.draws, d.1 < t ∧ ∀ b ∈ d.2, ∀ ts ∈ s.switches, ts < d.1 → ts < b)

end Prot

namespace CtxMgr

/-- Modelled from the spec: the Context Manager state (spec 4.3): whether
the protected context initialised successfully at probe time, and which
mode is currently active (the header's `mInProtectedContext`). -/
structure Ctx where
  protectedSupported : Bool
  inProtectedContext : Bool
deriving DecidableEq

/-- The header's `isProtected()`: returns `mInProtectedContext`. -/
def isProtected (c : Ctx) : Bool := c.inProtectedContext

/-- Modelled from the spec: `useProtectedContext(enable)` attempts to make
the requested context current and returns whether the resulting active
mode is Protected; the request is not honored when the protected context
failed to initialise (the body is not in the sources). -/
def useProtectedContext (c : Ctx) (enable : Bool) : Ctx × Bool :=
  let m := enable && c.protectedSupported
  ({ c with inProtectedContext := m }, m)

end CtxMgr

namespace Frame

/-- Modelled from the spec: the result of binding one layer's buffer. -/
inductive BindResult where
  | ok
  | contextLost
  | importFailed
deriving DecidableEq

/-- The per-layer outcome of a frame: composited, or skipped after a
recoverable bind failure. -/
inductive Outcome where
  | composited
  | skipped
deriving DecidableEq

/-- The frame status: success, or one of the two fatal conditions. -/
inductive Status where
  | ok
  | contextLost
  | protectedUnavailable
deriving DecidableEq

/-- A layer of a frame: its buffer identity and payload, together with the
GPU import outcome its bind will have. -/
structure LayerL where
  id : Nat
  img : Nat
  res : BindResult
deriving DecidableEq

/-- The texture-cache representation threaded through a frame. -/
abbrev Cache := List (Nat × Nat)

/-- Map erase on the association list. -/
def eraseId : Cache → Nat → Cache
  | [], _ => []
  | p :: s, id => if p.1 == id then eraseId s id else p :: eraseId s id

/-- The cache effect of binding one layer: replacement on success, removal
of any stale entry on failure (spec 4.1). -/
def bindStep (s : Cache) (l : LayerL) : Cache :=
  match l.res with
  | .ok => (l.id, l.img) :: eraseId s l.id
  | _ => eraseId s l.id

/-- Modelled from the spec: the per-layer loop of `drawLayers`
(spec 4.5 step 3; the body is not in the sources): bind each layer's
buffer; a context loss aborts the frame, an import failure skips that
layer only, a successful bind composites the layer. -/
def drawLoop (s : Cache) : List LayerL → Option (Cache × List Outcome)
  | [] => some (s, [])
  | l :: ls =>
      match l.res with
      | .contextLost => none
      | .ok => (drawLoop (bindStep s l) ls).map (fun r => (r.1, Outcome.composited :: r.2))
      | .importFailed => (drawLoop (bindStep s l) ls).map (fun r => (r.1, Outcome.skipped :: r.2))

/-- Keep only the entries whose identity is in the active set. -/
def evictStale (s : Cache) (act : List Nat) : Cache :=
  s.filter (fun p => act.contains p.1)

/-- The result of a frame: its status, the per-layer outcomes (empty when
the frame failed fatally), and the texture cache after the frame. -/
structure FrameRes where
  status : Status
  outcomes : List Outcome
  cache : Cache
deriving DecidableEq

/-- Modelled from the spec: `drawFrame` (spec 4.5; the body of
`drawLayers` is not in the sources): fail fatally when the frame requires
protected content but the protected context is unavailable; otherwise run
the per-layer loop, failing fatally only on context loss; on success evict
the entries not bound by this frame. -/
def drawFrame (sup needsProtected : Bool) (s : Cache) (layers : List LayerL) : FrameRes :=
  if needsProtected && !sup then ⟨Status.protectedUnavailable, [], s⟩
  else
    match drawLoop s layers with
    | none => ⟨Status.contextLost, [], s⟩
    | some (s', outs) =>
        ⟨Status.ok, outs,
          evictStale s' ((layers.filter (fun l => l.res == BindResult.ok)).map LayerL.id)⟩

/-- The outcome the spec prescribes per layer: composited on a successful
bind, skipped on a recoverable failure. -/
def outcomeOf (l : LayerL) : Outcome :=
  if l.res = BindResult.ok then Outcome.composited else Outcome.skipped

end Frame

namespace Cleanup

/-- An observable event of `cleanupPostRender`: a blocking `finish()`, a
fence wait, or the destruction of one deferred resource. -/
inductive CEvent where
  | finishBlock
  | fenceWait
  | free (r : Nat)
deriving DecidableEq

/-- Modelled from the spec: the state relevant to `cleanupPostRender`
(spec 4.4): whether the driver supports sync fences, the header's
`mPriorResourcesCleaned` flag, and the resources whose destruction was
deferred past submission. -/
structure CState where
  fencesSupported : Bool
  priorResourcesCleaned : Bool
  pending : List Nat
deriving DecidableEq

/-- Modelled from the spec: `cleanupPostRender` (the body is not in the
sources). When prior resources were already cleaned, the call does nothing
and does not block. Otherwise it synchronises - by a fence wait when the
driver supports fences, by an immediate blocking `finish()` when it does
not - then frees the deferred resources and records completion in the
`priorResourcesCleaned` flag. Result: (new state, events in order). -/
def cleanupPostRender (s : CState) : CState × List CEvent :=
  if s.priorResourcesCleaned then (s, [])
  else if s.fencesSupported then
    ({ s with priorResourcesCleaned := true, pending := [] },
      CEvent.fenceWait :: s.pending.map CEvent.free)
  else
    ({ s with priorResourcesCleaned := true, pending := [] },
      CEvent.finishBlock :: s.pending.map CEvent.free)

/-- Modelled from the spec: rendering a frame defers new resources and
resets the `priorResourcesCleaned` flag. -/
def renderFrame (s : CState) (rs : List Nat) : CState :=
  { s with priorResourcesCleaned := false, pending := s.pending ++ rs }

end Cleanup

namespace Compact

theorem reclaimPath_inj {a b : String} (h : reclaimPath a = reclaimPath b) : a = b := by
  unfold reclaimPath at h
  have hd := congrArg String.data h
  simp only [String.data_append] at hd
  exact String.ext (List.append_cancel_left (List.append_cancel_right hd))

theorem compactStep_eq_some {fs : ProcFS} {e : DirEnt} {w : String × String}
    (h : compactStep fs e = some w) :
    w = (reclaimPath e.d_name, "all") ∧ e.d_type = DT_DIR ∧ atoi e.d_name ≠ fs.pid ∧
      ∃ uid, fs.statUid (statusPath e.d_name) = some uid ∧ uid < 10000 := by
  by_cases h1 : e.d_type = DT_DIR
  · by_cases h2 : atoi e.d_name = fs.pid
    · simp [compactStep, h1, h2] at h
    · cases hu : fs.statUid (statusPath e.d_name) with
      | none => simp [compactStep, h1, h2, hu] at h
      | some uid =>
          by_cases h3 : 10000 ≤ uid
          · simp [compactStep, h1, h2, hu, h3] at h
          · simp [compactStep, h1, h2, hu, h3] at h
            exact ⟨h.symm, h1, h2, uid, rfl, by omega⟩
  · simp [compactStep, h1] at h

/-- Claim C10: `compactSystem` writes the string `"all"` to
`/proc/<name>/reclaim` iff some `/proc` entry of that name is a directory,
its name parsed as an integer differs from the calling process's pid,
`stat` on `/proc/<name>/status` succeeds, and the owner uid of that file is
strictly below 10000; in particular an entry whose name parses to the
calling pid, or whose status file is owned by an application uid, is never
reclaimed. -/
theorem compactSystem_spec (fs : ProcFS) (n : String) :
    ((reclaimPath n, "all") ∈ compactSystem fs ↔
      ∃ e ∈ fs.entries, e.d_name = n ∧ e.d_type = DT_DIR ∧ atoi n ≠ fs.pid ∧
        ∃ uid, fs.statUid (statusPath n) = some uid ∧ uid < 10000) ∧
    (∀ e : DirEnt, atoi e.d_name = fs.pid → compactStep fs e = none) ∧
    (∀ (e : DirEnt) (uid : Nat), fs.statUid (statusPath e.d_name) = some uid →
        10000 ≤ uid → compactStep fs e = none) := by
  refine ⟨?_, ?_, ?_⟩
  · constructor
    · intro hmem
      rw [compactSystem, List.mem_filterMap] at hmem
      obtain ⟨e, he, hstep⟩ := hmem
      obtain ⟨hw, h1, h2, uid, hu, hlt⟩ := compactStep_eq_some hstep
      have hname : e.d_name = n := reclaimPath_inj (congrArg Prod.fst hw).symm
      subst hname
      exact ⟨e, he, rfl, h1, h2, uid, hu, hlt⟩
    · rintro ⟨e, he, hname, h1, h2, uid, hu, hlt⟩
      rw [compactSystem, List.mem_filterMap]
      refine ⟨e, he, ?_⟩
      have h3 : ¬ 10000 ≤ uid := by omega
      simp [compactStep, hname, h1, h2, hu, h3]
  · intro e h
    by_cases h1 : e.d_type = DT_DIR
    · simp [compactStep, h1, h]
    · simp [compactStep, h1]
  · intro e uid hu hge
    by_cases h1 : e.d_type = DT_DIR
    · by_cases h2 : atoi e.d_name = fs.pid
      · simp [compactStep, h1, h2]
      · simp [compactStep, h1, h2, hu, hge]
    · simp [compactStep, h1]

/-- Witness for C10: the entry named `"1"` parses to the calling pid of
`fsEx` and is skipped. -/
theorem compactSystem_spec_witness :
    compactStep fsEx ⟨4, "1"⟩ = none :=
  (compactSystem_spec fsEx "1").2.1 ⟨4, "1"⟩ (by decide)

end Compact

namespace OutImg

theorem getOrCreate_capacity (c : OutputImageCache) (id img : Nat) :
    (getOrCreate c id img).1.capacity = c.capacity := by
  unfold getOrCreate
  cases hf : c.entries.find? (fun p => p.1 == id) <;> simp
  split <;> rfl

theorem getOrCreate_length_le (c : OutputImageCache) (id img : Nat)
    (h : c.entries.length ≤ c.capacity) :
    (getOrCreate c id img).1.entries.length ≤ c.capacity := by
  unfold getOrCreate
  cases hf : c.entries.find? (fun p => p.1 == id) with
  | some p => simpa using h
  | none =>
      simp only []
      split
      · next hc =>
          simp only [List.tail_append_of_ne_nil] at *
          simp [List.length_tail]
          omega
      · next hc =>
          simp at hc ⊢
          omega

theorem runCache_inv (ops : List (Nat × Nat)) :
    ∀ c : OutputImageCache, c.entries.length ≤ c.capacity →
      (runCache c ops).entries.length ≤ (runCache c ops).capacity ∧
      (runCache c ops).capacity = c.capacity := by
  induction ops with
  | nil => intro c h; exact ⟨h, rfl⟩
  | cons op ops ih =>
      intro c h
      have h1 := getOrCreate_length_le c op.1 op.2 h
      have h2 := getOrCreate_capacity c op.1 op.2
      have := ih (getOrCreate c op.1 op.2).1 (by rw [h2]; exact h1)
      simpa [runCache, h2] using this

/-- Claim C1: over any sequence of `getOrCreate` calls starting from the
empty Output Image Cache of capacity `N`, the size never exceeds `N` (the
state after any prefix is itself a `runCache` state, so the bound holds at
all times), and whenever a call destroys an entry, that entry is the front
(oldest, least-recently-inserted) one of the insertion order. -/
theorem outputCache_capacity (N : Nat) (ops : List (Nat × Nat)) :
    (runCache ⟨N, []⟩ ops).entries.length ≤ N ∧
    (∀ l₁ l₂, ops = l₁ ++ l₂ → runCache ⟨N, []⟩ ops = runCache (runCache ⟨N, []⟩ l₁) l₂) ∧
    (∀ id img d, (getOrCreate (runCache ⟨N, []⟩ ops) id img).2.2 = some d →
        ((runCache ⟨N, []⟩ ops).entries ++ [(id, img)]).head? = some d) := by
  refine ⟨?_, ?_, ?_⟩
  · obtain ⟨h1, h2⟩ := runCache_inv ops ⟨N, []⟩ (by simp)
    simpa [h2] using h1
  · intro l₁ l₂ h
    subst h
    simp [runCache, List.foldl_append]
  · intro id img d hd
    unfold getOrCreate at hd
    cases hf : (runCache ⟨N, []⟩ ops).entries.find? (fun p => p.1 == id) with
    | some p => rw [hf] at hd; simp at hd
    | none =>
        rw [hf] at hd
        simp only [] at hd
        split at hd
        · exact hd
        · simp at hd

/-- Witness for C1: with capacity 1, inserting a third identity destroys
the front entry. -/
theorem outputCache_capacity_witness :
    ((runCache ⟨1, []⟩ [(1,10),(2,20)]).entries ++ [(3,30)]).head? = some (2,20) :=
  (outputCache_capacity 1 [(1,10),(2,20)]).2.2 3 30 (2,20) (by decide)

/-- Claim C2: a `getOrCreate` hit returns the existing entry and leaves
the cache (hence the insertion order) unchanged - strict FIFO, not
access-order LRU; concretely, with capacity 2, inserting identities
1, 2, 3 leaves `{2, 3}` with 1's image destroyed, and then inserting 4
leaves `{3, 4}` with 2's image destroyed. -/
theorem getOrCreate_hit_fifo :
    (∀ (c : OutputImageCache) (id img : Nat) (p : Nat × Nat),
        c.entries.find? (fun q => q.1 == id) = some p →
        getOrCreate c id img = (c, p.2, none)) ∧
    runCacheD ⟨2, []⟩ [(1,10),(2,20),(3,30)] = (⟨2, [(2,20),(3,30)]⟩, [(1,10)]) ∧
    runCacheD ⟨2, []⟩ [(1,10),(2,20),(3,30),(4,40)] =
      (⟨2, [(3,30),(4,40)]⟩, [(1,10),(2,20)]) := by
  refine ⟨?_, by decide, by decide⟩
  intro c id img p hp
  unfold getOrCreate
  rw [hp]

/-- Witness for C2: a hit on a concrete cache returns the cached image and
the unchanged cache. -/
theorem getOrCreate_hit_fifo_witness :
    getOrCreate ⟨2, [(5,7)]⟩ 5 9 = (⟨2, [(5,7)]⟩, 7, none) :=
  getOrCreate_hit_fifo.1 ⟨2, [(5,7)]⟩ 5 9 (5,7) (by decide)

end OutImg

namespace Tex

theorem lookup_eraseId_ne (s : Cache) (i id : Nat) (h : i ≠ id) :
    lookup (eraseId s i) id = lookup s id := by
  induction s with
  | nil => rfl
  | cons p s ih =>
      by_cases hp : p.1 = i
      · simp [eraseId, lookup, hp, h, ih]
      · by_cases hq : p.1 = id
        · simp [eraseId, lookup, hp, hq, Ne.symm h]
        · simp [eraseId, lookup, hp, hq, ih]

theorem lookup_eraseId_self (s : Cache) (i : Nat) : lookup (eraseId s i) i = none := by
  induction s with
  | nil => rfl
  | cons p s ih =>
      by_cases hp : p.1 = i
      · simp [eraseId, hp, ih]
      · simp [eraseId, lookup, hp, ih]

theorem lookup_filterMem (s : Cache) (act : List Nat) (id : Nat) :
    lookup (s.filter (fun p => decide (p.1 ∈ act))) id =
      if id ∈ act then lookup s id else none := by
  induction s with
  | nil => simp [lookup]
  | cons p s ih =>
      by_cases hq : p.1 = id
      · by_cases ha : id ∈ act
        · simp [List.filter_cons, lookup, hq, ha, ih]
        · simp [List.filter_cons, lookup, hq, ha, ih]
      · by_cases hp : p.1 ∈ act
        · simp [List.filter_cons, lookup, hp, hq, ih]
        · simp [List.filter_cons, lookup, hp, hq, ih]

theorem eraseId_of_lookup_none (s : Cache) (i : Nat) (h : lookup s i = none) :
    eraseId s i = s := by
  induction s with
  | nil => rfl
  | cons p s ih =>
      rw [lookup] at h
      by_cases hp : p.1 = i
      · simp [hp] at h
      · simp only [eraseId]
        rw [ih (by simpa [hp] using h)]
        simp [hp]

theorem live_run (ops : List TexOp) :
    ∀ (s : Cache) (id : Nat),
      (lookup (runFrom s ops) id).isSome = ops.foldl (liveF id) (lookup s id).isSome := by
  induction ops with
  | nil => intro s id; rfl
  | cons op ops ih =>
      intro s id
      rw [runFrom, List.foldl_cons, List.foldl_cons, ← runFrom]
      rw [ih (step s op) id]
      congr 1
      cases op with
      | bind i img r =>
          by_cases hq : i = id
          · subst hq
            cases r <;> simp [step, Tex.bind, liveF, lookup, lookup_eraseId_self]
          · cases r <;>
              simp [step, Tex.bind, liveF, lookup, hq, lookup_eraseId_ne _ _ _ hq,
                Ne.symm hq]
      | unbind i =>
          by_cases hq : i = id
          · subst hq
            simp [step, Tex.unbind, liveF, lookup_eraseId_self]
          · simp [step, Tex.unbind, liveF, hq, lookup_eraseId_ne _ _ _ hq]
      | evict act =>
          by_cases ha : id ∈ act
          · simp [step, evictStale, liveF, ha]
            rw [lookup_filterMem, if_pos ha]
          · simp [step, evictStale, liveF, ha]
            rw [lookup_filterMem, if_neg ha]

/-- Claim C3: after any sequence of bind/unbind/evict operations starting
from the empty External Texture Cache, identity `id` has an entry iff it
was bound successfully and not subsequently unbound or evicted; and
`unbind` of an identity with no entry is a no-op. -/
theorem texCache_live_iff (ops : List TexOp) (id : Nat) :
    ((lookup (run ops) id).isSome = specLive ops id) ∧
    (∀ (s : Cache) (i : Nat), lookup s i = none → unbind s i = (s, none)) := by
  constructor
  · rw [run, specLive, live_run ops [] id]; rfl
  · intro s i h
    rw [unbind, eraseId_of_lookup_none s i h, h]

/-- Witness for C3: unbinding an absent identity changes nothing and
destroys nothing. -/
theorem texCache_live_iff_witness :
    unbind [(1,5)] 2 = ([(1,5)], none) :=
  (texCache_live_iff [] 0).2 [(1,5)] 2 (by decide)

/-- Claim C4: `evictStale` keeps exactly the cached entries whose identity
is in the active set and removes-and-destroys exactly those whose identity
is not; in particular every identity still cached afterwards is in the
active set. -/
theorem evictStale_exact (s : Cache) (act : List Nat) :
    (∀ p ∈ (evictStale s act).1, p.1 ∈ act) ∧
    (∀ p : Nat × Nat, p ∈ (evictStale s act).1 ↔ p ∈ s ∧ p.1 ∈ act) ∧
    (∀ p : Nat × Nat, p ∈ (evictStale s act).2 ↔ p ∈ s ∧ p.1 ∉ act) := by
  refine ⟨?_, ?_, ?_⟩
  · intro p hp
    rw [evictStale] at hp
    simp only [List.mem_filter] at hp
    simpa using hp.2
  · intro p
    rw [evictStale]
    simp [List.mem_filter]
  · intro p
    rw [evictStale]
    simp [List.mem_filter]

/-- Witness for C4: a kept entry's identity is in the active set. -/
theorem evictStale_exact_witness :
    (1 : Nat) ∈ [1] :=
  (evictStale_exact [(1,5)] [1]).1 (1,5) (by decide)

theorem eraseId_sublist (s : Cache) (id : Nat) : List.Sublist (eraseId s id) s := by
  induction s with
  | nil => simp [eraseId]
  | cons p s ih =>
      rw [eraseId]
      split
      · exact ih.cons p
      · exact ih.cons₂ p

theorem mem_eraseId_ne (s : Cache) (id : Nat) :
    ∀ p ∈ eraseId s id, p.1 ≠ id := by
  induction s with
  | nil => simp [eraseId]
  | cons q s ih =>
      rw [eraseId]
      split
      · exact ih
      · next hq =>
          intro p hp
          rcases List.mem_cons.mp hp with h1 | hp
          · subst h1; simpa using hq
          · exact ih p hp

theorem countKey_eraseId (s : Cache) (id : Nat) : countKey (eraseId s id) id = 0 := by
  rw [countKey, List.length_eq_zero]
  rw [List.filter_eq_nil_iff]
  intro p hp
  simpa using mem_eraseId_ne s id p hp

theorem keysNodup_eraseId (s : Cache) (id : Nat) (h : keysNodup s) :
    keysNodup (eraseId s id) :=
  List.Nodup.sublist (List.Sublist.map Prod.fst (eraseId_sublist s id)) h

theorem keysNodup_step (s : Cache) (op : TexOp) (h : keysNodup s) :
    keysNodup (step s op) := by
  cases op with
  | bind id img r =>
      cases r with
      | ok =>
          have hst : step s (TexOp.bind id img BindResult.ok) = (id, img) :: eraseId s id := rfl
          rw [hst, keysNodup, List.map_cons, List.nodup_cons]
          refine ⟨?_, keysNodup_eraseId s id h⟩
          intro hmem
          simp only [List.mem_map] at hmem
          obtain ⟨p, hp, hfst⟩ := hmem
          exact mem_eraseId_ne s id p hp hfst
      | contextLost => exact keysNodup_eraseId s id h
      | importFailed => exact keysNodup_eraseId s id h
  | unbind id => exact keysNodup_eraseId s id h
  | evict act =>
      exact List.Nodup.sublist
        (List.Sublist.map Prod.fst (List.filter_sublist s)) h

theorem keysNodup_runFrom (ops : List TexOp) :
    ∀ s : Cache, keysNodup s → keysNodup (runFrom s ops) := by
  induction ops with
  | nil => intro s h; exact h
  | cons op ops ih =>
      intro s h
      rw [runFrom, List.foldl_cons, ← runFrom]
      exact ih (step s op) (keysNodup_step s op h)

/-- Claim C5: a successful re-bind destroys exactly the one prior image
for the identity and replaces it; after the bind exactly one entry carries
the identity, and every reachable cache has pairwise-distinct keys (never
two live images for one identity); a failed bind leaves no entry for the
identity and reports the error. -/
theorem bind_replace (s : Cache) (id img : Nat) :
    ((bind s id img .ok).2.1 = lookup s id) ∧
    (lookup (bind s id img .ok).1 id = some img) ∧
    (countKey (bind s id img .ok).1 id = 1) ∧
    (∀ r, r ≠ BindResult.ok →
        lookup (bind s id img r).1 id = none ∧ (bind s id img r).2.2 = some r) ∧
    (∀ ops, keysNodup (run ops)) := by
  refine ⟨rfl, by simp [Tex.bind, lookup], ?_, ?_, ?_⟩
  · have hb : (Tex.bind s id img BindResult.ok).1 = (id, img) :: eraseId s id := rfl
    rw [hb, countKey, List.filter_cons]
    have h0 := countKey_eraseId s id
    rw [countKey] at h0
    simp [h0]
  · intro r hr
    cases r with
    | ok => exact absurd rfl hr
    | contextLost => exact ⟨lookup_eraseId_self s id, rfl⟩
    | importFailed => exact ⟨lookup_eraseId_self s id, rfl⟩
  · intro ops
    exact keysNodup_runFrom ops [] (by simp [keysNodup])

/-- Witness for C5: a failed bind on a concrete cache leaves no entry for
the identity and reports the error. -/
theorem bind_replace_witness :
    lookup (bind [(1,7)] 1 9 BindResult.contextLost).1 1 = none ∧
    (bind [(1,7)] 1 9 BindResult.contextLost).2.2 = some BindResult.contextLost :=
  (bind_replace [(1,7)] 1 9).2.2.2.1 BindResult.contextLost (by decide)

end Tex

namespace Prot

theorem pstep_inv (sup : Bool) (s : PState) (t : Nat) (op : POp) (h : PInv s t) :
    PInv (pstep sup s t op) (t + 1) := by
  obtain ⟨hs, htex, hout, hdr⟩ := h
  cases op with
  | bind id =>
      refine ⟨fun ts hts => by have := hs ts hts; omega, ?_, ?_, ?_⟩
      · intro p hp
        rcases List.mem_cons.mp hp with h1 | hp
        · subst h1
          exact ⟨by omega, fun ts hts => hs ts hts⟩
        · have := htex p (List.mem_of_mem_filter hp)
          exact ⟨by omega, this.2⟩
      · intro p hp
        have := hout p hp
        exact ⟨by omega, this.2⟩
      · intro d hd
        have := hdr d hd
        exact ⟨by omega, this.2⟩
  | unbind id =>
      refine ⟨fun ts hts => by have := hs ts hts; omega, ?_, ?_, ?_⟩
      · intro p hp
        have := htex p (List.mem_of_mem_filter hp)
        exact ⟨by omega, this.2⟩
      · intro p hp
        have := hout p hp
        exact ⟨by omega, this.2⟩
      · intro d hd
        have := hdr d hd
        exact ⟨by omega, this.2⟩
  | getOut id =>
      rw [pstep]
      cases hf : s.out.find? (fun p => p.1 == id) with
      | some q =>
          refine ⟨fun ts hts => by have := hs ts hts; omega, ?_, ?_, ?_⟩
          · intro p hp
            have := htex p hp
            exact ⟨by omega, this.2⟩
          · intro p hp
            have := hout p hp
            exact ⟨by omega, this.2⟩
          · intro d hd
            have := hdr d hd
            exact ⟨by omega, this.2⟩
      | none =>
          refine ⟨fun ts hts => by have := hs ts hts; omega, ?_, ?_, ?_⟩
          · intro p hp
            have := htex p hp
            exact ⟨by omega, this.2⟩
          · intro p hp
            rcases List.mem_append.mp hp with hp | hp
            · have := hout p hp
              exact ⟨by omega, this.2⟩
            · rcases List.mem_singleton.mp hp with rfl
              exact ⟨by omega, fun ts hts => hs ts hts⟩
          · intro d hd
            have := hdr d hd
            exact ⟨by omega, this.2⟩
  | setProt e =>
      rw [pstep]
      by_cases hm : ((e && sup) == s.inProt) = true
      · rw [if_pos hm]
        refine ⟨fun ts hts => by have := hs ts hts; omega, ?_, ?_, ?_⟩
        · intro p hp
          have := htex p hp
          exact ⟨by omega, this.2⟩
        · intro p hp
          have := hout p hp
          exact ⟨by omega, this.2⟩
        · intro d hd
          have := hdr d hd
          exact ⟨by omega, this.2⟩
      · rw [if_neg hm]
        refine ⟨?_, by simp, by simp, ?_⟩
        · intro ts hts
          rcases List.mem_append.mp hts with hts | hts
          · have := hs ts hts; omega
          · rcases List.mem_singleton.mp hts with rfl; omega
        · intro d hd
          have hd1 := hdr d hd
          refine ⟨by omega, ?_⟩
          intro b hb ts hts hlt
          rcases List.mem_append.mp hts with hts | hts
          · exact hd1.2 b hb ts hts hlt
          · rcases List.mem_singleton.mp hts with rfl
            have := hd1.1
            omega
  | draw =>
      refine ⟨fun ts hts => by have := hs ts hts; omega, ?_, ?_, ?_⟩
      · intro p hp
        have := htex p hp
        exact ⟨by omega, this.2⟩
      · intro p hp
        have := hout p hp
        exact ⟨by omega, this.2⟩
      · intro d hd
        rcases List.mem_append.mp hd with hd | hd
        · have := hdr d hd
          exact ⟨by omega, this.2⟩
        · rcases List.mem_singleton.mp hd with rfl
          refine ⟨by omega, ?_⟩
          intro b hb ts hts _
          simp only [List.mem_map] at hb
          obtain ⟨p, hp, rfl⟩ := hb
          exact (htex p hp).2 ts hts

theorem prunAux_inv (sup : Bool) (ops : List POp) :
    ∀ (s : PState) (t : Nat), PInv s t → PInv (prunAux sup s t ops) (t + ops.length) := by
  induction ops with
  | nil => intro s t h; simpa using h
  | cons op ops ih =>
      intro s t h
      rw [prunAux]
      have := ih (pstep sup s t op) (t + 1) (pstep_inv sup s t op h)
      have harith : t + 1 + ops.length = t + (op :: ops).length := by
        simp [List.length_cons]; omega
      rwa [harith] at this

/-- Claim C6: over any run of the engine, every draw call consumes only
images created after every mode switch that preceded the draw (so an image
created under one protection mode is never passed to a draw issued after a
switch), and every image still cached at the end was created after every
switch - both caches are cleared at every effective switch. -/
theorem prot_isolation (sup : Bool) (ops : List POp) :
    (∀ td births, (td, births) ∈ (prun sup ops).draws →
      ∀ ts ∈ (prun sup ops).switches, ts < td → ∀ b ∈ births, ts < b) ∧
    (∀ p ∈ (prun sup ops).tex ++ (prun sup ops).out,
      ∀ ts ∈ (prun sup ops).switches, ts < p.2) := by
  have hinv : PInv (prun sup ops) (0 + ops.length) :=
    prunAux_inv sup ops pinit 0 ⟨by simp [pinit], by simp [pinit], by simp [pinit], by simp [pinit]⟩
  obtain ⟨hs, htex, hout, hdr⟩ := hinv
  constructor
  · intro td births hmem ts hts hlt b hb
    exact (hdr (td, births) hmem).2 b hb ts hts hlt
  · intro p hp ts hts
    rcases List.mem_append.mp hp with hp | hp
    · exact (htex p hp).2 ts hts
    · exact (hout p hp).2 ts hts

/-- Witness for C6: bind, switch to protected, bind again, draw - the draw
uses only the post-switch image (born at step 2, after the switch at
step 1). -/
theorem prot_isolation_witness :
    (3, [2]) ∈ (prun true [POp.bind 1, POp.setProt true, POp.bind 2, POp.draw]).draws ∧
    (1 : Nat) < 2 :=
  ⟨by decide,
    (prot_isolation true [POp.bind 1, POp.setProt true, POp.bind 2, POp.draw]).1
      3 [2] (by decide) 1 (by decide) (by decide) 2 (by decide)⟩

end Prot

namespace CtxMgr

/-- Claim C7: `useProtectedContext` returns whether the resulting active
mode is Protected; when the protected context failed to initialise, a
request for Protected leaves the active mode Normal and the call returns
that resulting mode; and `isProtected` always reports the active mode. -/
theorem useProtectedContext_result (c : Ctx) (e : Bool) :
    ((useProtectedContext c e).2 = isProtected (useProtectedContext c e).1) ∧
    (c.protectedSupported = false → e = true →
      isProtected (useProtectedContext c e).1 = false ∧ (useProtectedContext c e).2 = false) ∧
    (∀ c' : Ctx, isProtected c' = c'.inProtectedContext) := by
  refine ⟨rfl, ?_, fun c' => rfl⟩
  intro hs he
  subst he
  simp [useProtectedContext, isProtected, hs]

/-- Witness for C7: requesting the protected mode without a protected
context leaves the mode Normal and returns false. -/
theorem useProtectedContext_result_witness :
    isProtected (useProtectedContext ⟨false, false⟩ true).1 = false ∧
    (useProtectedContext ⟨false, false⟩ true).2 = false :=
  (useProtectedContext_result ⟨false, false⟩ true).2.1 rfl rfl

end CtxMgr

namespace Frame

theorem drawLoop_some (layers : List LayerL) :
    ∀ s : Cache, (∀ l ∈ layers, l.res ≠ BindResult.contextLost) →
      ∃ s', drawLoop s layers = some (s', layers.map outcomeOf) := by
  induction layers with
  | nil => intro s _; exact ⟨s, rfl⟩
  | cons l ls ih =>
      intro s h
      have hl : l.res ≠ BindResult.contextLost := h l (List.mem_cons_self l ls)
      have hls : ∀ x ∈ ls, x.res ≠ BindResult.contextLost :=
        fun x hx => h x (List.mem_cons_of_mem l hx)
      obtain ⟨s', hs'⟩ := ih (bindStep s l) hls
      cases hres : l.res with
      | contextLost => exact absurd hres hl
      | ok =>
          refine ⟨s', ?_⟩
          rw [drawLoop, hres, hs']
          simp [outcomeOf, hres]
      | importFailed =>
          refine ⟨s', ?_⟩
          rw [drawLoop, hres, hs']
          simp [outcomeOf, hres]

theorem drawLoop_none_of_mem (layers : List LayerL) :
    ∀ (s : Cache) (l : LayerL), l ∈ layers → l.res = BindResult.contextLost →
      drawLoop s layers = none := by
  induction layers with
  | nil => intro s l h; simp at h
  | cons x ls ih =>
      intro s l hl hres
      rcases List.mem_cons.mp hl with rfl | hl
      · rw [drawLoop, hres]
      · cases hx : x.res with
        | contextLost => rw [drawLoop, hx]
        | ok => rw [drawLoop, hx, ih (bindStep s x) l hl hres]; rfl
        | importFailed => rw [drawLoop, hx, ih (bindStep s x) l hl hres]; rfl

/-- Claim C8: a frame succeeds iff the protected context is available when
required and no layer's bind loses the context; in that case each layer
with a recoverable bind failure is skipped while every other layer is
composited - one failing layer among many never aborts the frame, and the
frame is fatal only on context loss or a required-protected switch
failure. -/
theorem drawFrame_graceful (sup needsProtected : Bool) (s : Cache) (layers : List LayerL) :
    ((drawFrame sup needsProtected s layers).status = Status.ok ↔
      ((needsProtected = true → sup = true) ∧
        ∀ l ∈ layers, l.res ≠ BindResult.contextLost)) ∧
    ((needsProtected = true → sup = true) →
      (∀ l ∈ layers, l.res ≠ BindResult.contextLost) →
      (drawFrame sup needsProtected s layers).outcomes = layers.map outcomeOf) := by
  by_cases hp : (needsProtected && !sup) = true
  · have hps : ¬ (needsProtected = true → sup = true) := by
      intro hc
      have hand : needsProtected = true ∧ (!sup) = true := by
        simpa [Bool.and_eq_true] using hp
      rw [hc hand.1] at hand
      simp at hand
    refine ⟨?_, fun h1 _ => absurd h1 hps⟩
    rw [drawFrame, if_pos hp]
    constructor
    · intro h; exact absurd h (by simp)
    · intro h; exact absurd h.1 hps
  · have hcond : needsProtected = true → sup = true := by
      intro hn
      cases hsup : sup
      · exact absurd (by simp [hn, hsup]) hp
      · rfl
    constructor
    · constructor
      · intro hst
        refine ⟨hcond, ?_⟩
        intro l hl hres
        rw [drawFrame, if_neg hp, drawLoop_none_of_mem layers s l hl hres] at hst
        simp at hst
      · intro ⟨_, hnl⟩
        obtain ⟨s', hs'⟩ := drawLoop_some layers s hnl
        rw [drawFrame, if_neg hp, hs']
    · intro _ hnl
      obtain ⟨s', hs'⟩ := drawLoop_some layers s hnl
      rw [drawFrame, if_neg hp, hs']

/-- Witness for C8: of three layers with one recoverable bind failure, the
failing layer is skipped and the other two are composited. -/
theorem drawFrame_graceful_witness :
    (drawFrame true false []
        [⟨1, 10, BindResult.ok⟩, ⟨2, 20, BindResult.importFailed⟩,
          ⟨3, 30, BindResult.ok⟩]).outcomes =
      [Outcome.composited, Outcome.skipped, Outcome.composited] :=
  (drawFrame_graceful true false []
      [⟨1, 10, BindResult.ok⟩, ⟨2, 20, BindResult.importFailed⟩,
        ⟨3, 30, BindResult.ok⟩]).2 (by decide) (by decide)

end Frame

namespace Cleanup

/-- Claim C9: without sync-fence support and with the flag clear,
`cleanupPostRender` performs a blocking `finish()` first and then frees
the deferred resources, records completion in the
`priorResourcesCleaned` flag, and a second call with no intervening
rendering is a non-blocking no-op. -/
theorem cleanup_no_fence_degraded (s : CState)
    (h1 : s.fencesSupported = false) (h2 : s.priorResourcesCleaned = false) :
    ((cleanupPostRender s).2 = CEvent.finishBlock :: s.pending.map CEvent.free) ∧
    ((cleanupPostRender s).1.priorResourcesCleaned = true) ∧
    (cleanupPostRender (cleanupPostRender s).1 = ((cleanupPostRender s).1, [])) := by
  rw [cleanupPostRender]
  rw [if_neg (by simp [h2]), if_neg (by simp [h1])]
  refine ⟨rfl, rfl, ?_⟩
  rw [cleanupPostRender, if_pos rfl]

/-- Witness for C9: a concrete fence-less state blocks once, frees its
resource, and the second call does nothing. -/
theorem cleanup_no_fence_degraded_witness :
    (cleanupPostRender ⟨false, false, [7]⟩).2 =
      CEvent.finishBlock :: [CEvent.free 7] ∧
    (cleanupPostRender ⟨false, false, [7]⟩).1.priorResourcesCleaned = true ∧
    (cleanupPostRender (cleanupPostRender ⟨false, false, [7]⟩).1 =
      ((cleanupPostRender ⟨false, false, [7]⟩).1, [])) :=
  cleanup_no_fence_degraded ⟨false, false, [7]⟩ rfl rfl

end Cleanup
